import Mathlib

/-
Verification of the gradient image optimizer ("dream loop") of
`optimization_tutorial.ipynb`.

Shallow embedding conventions:
* A tensor element is `Option ℚ`: `some q` is a finite floating-point value,
  `none` is a non-finite value (NaN / Inf).  Elementwise arithmetic propagates
  `none`, and division by zero produces `none` (IEEE 0/0 = NaN; the only
  division in the loop whose denominator can be zero is
  `data.grad * learning_rate / grad_mean`, and in exact arithmetic
  `grad_mean = 0` forces the numerator to be `0` as well, so the `none`
  result always stands for NaN).  `torch.max` / `torch.min` / `clamp`
  propagate NaN, matching torch elementwise semantics.
* The composite "forward model + objective + autodiff" collaborator is a
  parameter `g : Tens → Tens` mapping the current image state to the gradient
  tensor `data.grad` that the backward call deposits on it (spec §6: the
  forward-model collaborator with automatic differentiation is external).
* The source's global flag `do_random_shifts` instantiates to `false` for
  `dream` below; `dreamShift` is the same loop with the flag `true`, taking
  the stream of drawn random offsets as an explicit list (spec §6: the random
  source is an external collaborator).
-/

namespace DreamSpec

/-- Scalar value of the embedding: `some q` a finite float, `none` non-finite. -/
abbrev V := Option ℚ

/-- Elementwise addition, NaN-propagating. -/
def vadd : V → V → V
  | some a, some b => some (a + b)
  | _, _ => none

/-- Elementwise subtraction, NaN-propagating. -/
def vsub : V → V → V
  | some a, some b => some (a - b)
  | _, _ => none

/-- Elementwise multiplication, NaN-propagating. -/
def vmul : V → V → V
  | some a, some b => some (a * b)
  | _, _ => none

/-- Elementwise division: division by zero is non-finite (0/0 = NaN in the
reachable states of the loop), otherwise exact. -/
def vdiv : V → V → V
  | some a, some b => if b = 0 then none else some (a / b)
  | _, _ => none

/-- Elementwise absolute value (`Tensor.abs`). -/
def vabs : V → V
  | some a => some |a|
  | none => none

/-- Elementwise `torch.max`, NaN-propagating. -/
def vmax : V → V → V
  | some a, some b => some (max a b)
  | _, _ => none

/-- Elementwise `torch.min`, NaN-propagating. -/
def vmin : V → V → V
  | some a, some b => some (min a b)
  | _, _ => none

/-- Elementwise `Tensor.clamp(0, 1)`, NaN-propagating. -/
def vclamp01 : V → V
  | some a => some (min (max a 0) 1)
  | none => none

/-- A CHW image tensor: dimension sizes plus a total valuation function
(indices beyond the bounds are padding and never influence an in-range
element of any operation below). -/
@[ext] structure Tens where
  c : ℕ
  h : ℕ
  w : ℕ
  val : ℕ → ℕ → ℕ → V

/-- The HWC tensor returned by `dream` (`result.permute(1, 2, 0)`). -/
@[ext] structure OutImg where
  h : ℕ
  w : ℕ
  c : ℕ
  val : ℕ → ℕ → ℕ → V

/-- Per-channel normalization means: `mean = [0.485, 0.456, 0.406]`
(channels beyond 2 are padding, never reached for the 3-channel images of
the pipeline). -/
def meanC : ℕ → ℚ
  | 0 => 485/1000
  | 1 => 456/1000
  | 2 => 406/1000
  | _ => 0

/-- Per-channel normalization standard deviations: `std = [0.229, 0.224, 0.225]`. -/
def stdC : ℕ → ℚ
  | 0 => 229/1000
  | 1 => 224/1000
  | 2 => 225/1000
  | _ => 1

/-- Clamp lower bound: `clamp_min = -mean[:, None, None] / std[:, None, None]`. -/
def clampMinC (i : ℕ) : ℚ := -meanC i / stdC i

/-- Clamp upper bound: `clamp_max = (1 - mean[:, None, None]) / std[:, None, None]`. -/
def clampMaxC (i : ℕ) : ℚ := (1 - meanC i) / stdC i

/-- General `transforms.Normalize(m, s)`: per-channel `(x - m) / s`. -/
def normWith (m s : ℕ → ℚ) (t : Tens) : Tens :=
  ⟨t.c, t.h, t.w, fun ci hh ww => vdiv (vsub (t.val ci hh ww) (some (m ci))) (some (s ci))⟩

/-- The source's `normalize = transforms.Normalize(mean.tolist(), std.tolist())`. -/
def normalizeT (t : Tens) : Tens := normWith meanC stdC t

/-- The source's `unnormalize = transforms.Normalize((-mean / std).tolist(), (1.0 / std).tolist())`. -/
def unnormalizeT (t : Tens) : Tens := normWith (fun i => -meanC i / stdC i) (fun i => 1 / stdC i) t

/-- Postprocessing `.clamp(0, 1)` applied to every element. -/
def clamp01T (t : Tens) : Tens :=
  ⟨t.c, t.h, t.w, fun ci hh ww => vclamp01 (t.val ci hh ww)⟩

/-- The final `result.permute(1, 2, 0)`: CxHxW to HxWxC. -/
def permuteHWC (t : Tens) : OutImg :=
  ⟨t.h, t.w, t.c, fun hh ww ci => t.val ci hh ww⟩

/-- All elements of a tensor, in row-major order. -/
def allVals (t : Tens) : List V :=
  ((List.range t.c).map fun ci =>
    ((List.range t.h).map fun hh =>
      (List.range t.w).map fun ww => t.val ci hh ww).flatten).flatten

/-- Sum of a list of values, NaN-propagating. -/
def sumV (l : List V) : V := l.foldr vadd (some 0)

/-- The scalar `Tensor.abs().mean()`: sum of absolute values over the whole tensor divided
by the element count (a zero-size tensor yields NaN, as in torch). -/
def meanAbs (t : Tens) : V :=
  vdiv (sumV ((allVals t).map vabs)) (some ((t.c * t.h * t.w : ℕ) : ℚ))

/-- One in-place update of the loop body (the `torch.no_grad()` block):
`data += grad * learning_rate / grad_mean`, then
`data = torch.max(data, clamp_min)`, then `data = torch.min(data, clamp_max)`
with the per-channel bound tensors broadcast over H and W. -/
def stepUpdate (lr : ℚ) (grad : Tens) (data : Tens) : Tens :=
  let gm := meanAbs grad
  ⟨data.c, data.h, data.w, fun ci hh ww =>
    vmin (vmax (vadd (data.val ci hh ww) (vdiv (vmul (grad.val ci hh ww) (some lr)) gm))
               (some (clampMinC ci)))
         (some (clampMaxC ci))⟩

/-- The `for i in range(n_iter)` loop with `do_random_shifts = False`:
each iteration recomputes the gradient of the objective at the current state
(`x = data; output = model(x); grad_fn(output)` populates `data.grad`,
embedded as `g data`) and applies `stepUpdate`. -/
def dreamLoop (g : Tens → Tens) (lr : ℚ) : ℕ → Tens → Tens
  | 0, data => data
  | n + 1, data => dreamLoop g lr n (stepUpdate lr (g data) data)

/-- The `dream` function with `do_random_shifts = False`, taking the
already-decoded-and-resized `[0,1]` CHW image (the output of the external
`Resize`/`ToTensor` codec collaborator): normalize, run `n_iter` update steps
(`range` of a negative count is empty, hence `Int.toNat`), then
`unnormalize(data).clamp(0, 1)` and `permute(1, 2, 0)`. -/
def dream (g : Tens → Tens) (nIter : ℤ) (lr : ℚ) (img : Tens) : OutImg :=
  permuteHWC (clamp01T (unnormalizeT (dreamLoop g lr nIter.toNat (normalizeT img))))

/-- One draw of the four random offsets consumed by `random_shift`:
`top = random.randint(0, shift)`, `bot = random.randint(1, shift)` for the
height axis and `left`, `right` likewise for the width axis. -/
structure Off where
  top : ℕ
  bot : ℕ
  left : ℕ
  right : ℕ

/-- The view `random_shift(data) = data[:, top:-bot, left:-right]`: a shrunken view of
the working tensor (Python slice `a:-b` on an axis of size `n` keeps the
indices `a + 0, …, a + (n - a - b - 1)`; truncated ℕ subtraction reproduces
the empty slice whenever the offsets exhaust the axis). -/
def sliceT (o : Off) (t : Tens) : Tens :=
  ⟨t.c, t.h - o.top - o.bot, t.w - o.left - o.right,
   fun ci hh ww => t.val ci (hh + o.top) (ww + o.left)⟩

/-- Backpropagation through the slice: the gradient `data.grad` deposited on
the full working tensor embeds the gradient `gx` of the cropped view at its
window and is zero everywhere else. -/
def padGradT (o : Off) (data gx : Tens) : Tens :=
  ⟨data.c, data.h, data.w, fun ci hh ww =>
    if o.top ≤ hh ∧ hh - o.top < gx.h ∧ o.left ≤ ww ∧ ww - o.left < gx.w ∧ ci < gx.c
    then gx.val ci (hh - o.top) (ww - o.left) else some 0⟩

/-- The loop with `do_random_shifts = True`: each iteration consumes one
offset draw, feeds the cropped view `x = random_shift(data)` to the forward
pass (`gs` maps the cropped view to the gradient with respect to it), and
updates the full tensor with the zero-padded full-shape `data.grad`. -/
def dreamShiftLoop (gs : Tens → Tens) (lr : ℚ) : List Off → Tens → Tens
  | [], data => data
  | o :: rest, data =>
      dreamShiftLoop gs lr rest (stepUpdate lr (padGradT o data (gs (sliceT o data))) data)

/-- The `dream` function with `do_random_shifts = True`, the iteration count
given by the length of the stream of offset draws. -/
def dreamShift (gs : Tens → Tens) (offs : List Off) (lr : ℚ) (img : Tens) : OutImg :=
  permuteHWC (clamp01T (unnormalizeT (dreamShiftLoop gs lr offs (normalizeT img))))

/-- Output spatial dimensions of the external `transforms.Resize(256)`
collaborator (spec §6, "resize/crop" of the image codec): for an integer
size, torchvision returns the image unchanged when the smaller edge already
equals 256 and otherwise rescales so the smaller edge becomes 256,
preserving the aspect ratio with truncating integer conversion. -/
def resizeDims (hgt wdt : ℕ) : ℕ × ℕ :=
  if (wdt ≤ hgt ∧ wdt = 256) ∨ (hgt ≤ wdt ∧ hgt = 256) then (hgt, wdt)
  else if wdt < hgt then (256 * hgt / wdt, 256) else (256, 256 * wdt / hgt)

/-- Model of the external `Resize(256)` + `ToTensor` codec collaborator:
dimensions follow `resizeDims`; element content is modelled by
nearest-neighbor sampling (the claims decided through this definition
concern dimensions only, which do not depend on the interpolation). -/
def resizeNN (t : Tens) : Tens :=
  ⟨t.c, (resizeDims t.h t.w).1, (resizeDims t.h t.w).2,
   fun ci hh ww =>
     t.val ci (hh * t.h / (resizeDims t.h t.w).1) (ww * t.w / (resizeDims t.h t.w).2)⟩

/-- The full pipeline from the caller-supplied source image:
`dream` applies `img_transform = Compose([Resize(256), ToTensor(), normalize])`
to its argument before the loop; the `Resize`/`ToTensor` part is the external
codec, modelled by `resizeNN`. -/
def dreamFromSrc (g : Tens → Tens) (nIter : ℤ) (lr : ℚ) (src : Tens) : OutImg :=
  dream g nIter lr (resizeNN src)

/-- A feature activation of one stage, flattened as in
`o.view(o.shape[0], -1)`: `ch` channels by `n` spatial locations. -/
structure Feat where
  ch : ℕ
  n : ℕ
  val : ℕ → ℕ → ℚ

/-- Entry `(i, j)` of `r = torch.matmul(o.t(), g)`: the dot product of the
working feature vector at location `i` with the guide feature vector at
location `j`. -/
def simOG (o g : Feat) (i j : ℕ) : ℚ :=
  ((List.range o.ch).map fun ci => o.val ci i * g.val ci j).sum

/-- Row `i` of the similarity matrix `r`. -/
def simRow (o g : Feat) (i : ℕ) : List ℚ :=
  (List.range g.n).map fun j => simOG o g i j

/-- Tail recursion of `listArgmax`: current best value, its index, the index
of the next element, the remaining elements; a later element replaces the
best only when strictly greater, so the first maximal index wins. -/
def argmaxFrom : ℚ → ℕ → ℕ → List ℚ → ℕ
  | _, bi, _, [] => bi
  | bv, bi, i, x :: xs => if bv < x then argmaxFrom x i (i + 1) xs else argmaxFrom bv bi (i + 1) xs

/-- The `Tensor.argmax` of a row: the index of the first maximal element
(`0` for an empty row). -/
def listArgmax : List ℚ → ℕ
  | [] => 0
  | x :: xs => argmaxFrom x 0 1 xs

/-- The index `r.argmax(1)` evaluated at row `i`: the guide location whose feature
vector best matches the working features at location `i`. -/
def bestIdx (o g : Feat) (i : ℕ) : ℕ := listArgmax (simRow o g i)

/-- The tensor `r = g[:, r.argmax(1)]` followed by `r.view(shape)`: the tensor handed to
`output[layer].backward(r)` by `my_grad_fn`, whose column at each working
location is the guide feature vector at the best-matching location. -/
def injectedGrad (o g : Feat) : Feat :=
  ⟨g.ch, o.n, fun ci i => g.val ci (bestIdx o g i)⟩

/-- Every element of the tensor is finite (no NaN/Inf anywhere in the total
valuation). -/
def TFinite (t : Tens) : Prop := ∀ ci hh ww, t.val ci hh ww ≠ none

/-- The gradient collaborator is nondegenerate: at every finite state it
deposits a finite gradient whose mean absolute magnitude is a nonzero
rational (the guard the spec recommends in §7(c) and §9). -/
def GradOK (g : Tens → Tens) : Prop :=
  ∀ data : Tens, TFinite data →
    TFinite (g data) ∧ ∃ m : ℚ, m ≠ 0 ∧ meanAbs (g data) = some m

/-- The two clamp lines of the loop body as one operator:
`torch.min(torch.max(data, clamp_min), clamp_max)`. -/
def clampBT (t : Tens) : Tens :=
  ⟨t.c, t.h, t.w, fun ci hh ww =>
    vmin (vmax (t.val ci hh ww) (some (clampMinC ci))) (some (clampMaxC ci))⟩

lemma stdC_pos (i : ℕ) : 0 < stdC i := by
  rcases i with _ | _ | _ | i
  · norm_num [stdC]
  · norm_num [stdC]
  · norm_num [stdC]
  · exact one_pos

lemma clampMin_le_clampMax (i : ℕ) : clampMinC i ≤ clampMaxC i := by
  rcases i with _ | _ | _ | i
  · norm_num [clampMinC, clampMaxC, meanC, stdC]
  · norm_num [clampMinC, clampMaxC, meanC, stdC]
  · norm_num [clampMinC, clampMaxC, meanC, stdC]
  · norm_num [clampMinC, clampMaxC,
      show meanC (i + 1 + 1 + 1) = 0 from rfl, show stdC (i + 1 + 1 + 1) = 1 from rfl]

lemma sumV_cons (x : V) (xs : List V) : sumV (x :: xs) = vadd x (sumV xs) := rfl

lemma sumV_ne_none : ∀ l : List V, (∀ v ∈ l, v ≠ none) → sumV l ≠ none
  | [], _ => by simp [sumV, vadd]
  | x :: xs, h => by
      have hx := h x (by simp)
      have hxs := sumV_ne_none xs (fun v hv => h v (by simp [hv]))
      cases hcx : x with
      | none => exact absurd hcx hx
      | some a =>
        cases hcs : sumV xs with
        | none => exact absurd hcs hxs
        | some b => simp [sumV_cons, hcx, hcs, vadd]

lemma stepUpdate_finite (lr : ℚ) (grad data : Tens) (m : ℚ)
    (hm : meanAbs grad = some m) (hm0 : m ≠ 0)
    (hd : TFinite data) (hg : TFinite grad) :
    TFinite (stepUpdate lr grad data) := by
  intro ci hh ww
  cases hcd : data.val ci hh ww with
  | none => exact absurd hcd (hd ci hh ww)
  | some d =>
    cases hcg : grad.val ci hh ww with
    | none => exact absurd hcg (hg ci hh ww)
    | some gv =>
      simp [stepUpdate, hm, hcd, hcg, vmul, vdiv, vadd, vmax, vmin, hm0]

lemma normalizeT_finite (img : Tens) (h : TFinite img) : TFinite (normalizeT img) := by
  intro ci hh ww
  cases hc : img.val ci hh ww with
  | none => exact absurd hc (h ci hh ww)
  | some q =>
    simp [normalizeT, normWith, hc, vsub, vdiv, ne_of_gt (stdC_pos ci)]

lemma clampBT_finite (t : Tens) (h : TFinite t) : TFinite (clampBT t) := by
  intro ci hh ww
  cases hc : t.val ci hh ww with
  | none => exact absurd hc (h ci hh ww)
  | some q => simp [clampBT, hc, vmax, vmin]

lemma dreamLoop_finite (g : Tens → Tens) (lr : ℚ) (hg : GradOK g) :
    ∀ (n : ℕ) (data : Tens), TFinite data → TFinite (dreamLoop g lr n data)
  | 0, data, hd => hd
  | n + 1, data, hd => by
      obtain ⟨hgf, m, hm0, hm⟩ := hg data hd
      exact dreamLoop_finite g lr hg n _ (stepUpdate_finite lr (g data) data m hm hm0 hd hgf)

lemma dreamLoop_dims (g : Tens → Tens) (lr : ℚ) :
    ∀ (n : ℕ) (data : Tens), (dreamLoop g lr n data).c = data.c ∧
      (dreamLoop g lr n data).h = data.h ∧ (dreamLoop g lr n data).w = data.w
  | 0, _ => ⟨rfl, rfl, rfl⟩
  | n + 1, data => dreamLoop_dims g lr n (stepUpdate lr (g data) data)

lemma dreamShiftLoop_dims (gs : Tens → Tens) (lr : ℚ) :
    ∀ (offs : List Off) (data : Tens), (dreamShiftLoop gs lr offs data).c = data.c ∧
      (dreamShiftLoop gs lr offs data).h = data.h ∧ (dreamShiftLoop gs lr offs data).w = data.w
  | [], _ => ⟨rfl, rfl, rfl⟩
  | o :: rest, data =>
      dreamShiftLoop_dims gs lr rest (stepUpdate lr (padGradT o data (gs (sliceT o data))) data)

lemma clampB_val_idem (ci : ℕ) (v : V) :
    vmin (vmax (vmin (vmax v (some (clampMinC ci))) (some (clampMaxC ci))) (some (clampMinC ci)))
      (some (clampMaxC ci)) = vmin (vmax v (some (clampMinC ci))) (some (clampMaxC ci)) := by
  cases v with
  | none => simp [vmax, vmin]
  | some a =>
    simp only [vmax, vmin]
    have h1 : clampMinC ci ≤ min (max a (clampMinC ci)) (clampMaxC ci) :=
      le_min (le_max_right _ _) (clampMin_le_clampMax ci)
    rw [max_eq_left h1, min_eq_left (min_le_right _ _)]

lemma clampBT_idem (t : Tens) : clampBT (clampBT t) = clampBT t := by
  refine Tens.ext rfl rfl rfl ?_
  funext ci hh ww
  exact clampB_val_idem ci (t.val ci hh ww)

lemma stepUpdate_zero_lr (grad data : Tens) (m : ℚ)
    (hm : meanAbs grad = some m) (hm0 : m ≠ 0)
    (hd : TFinite data) (hg : TFinite grad) :
    stepUpdate 0 grad data = clampBT data := by
  refine Tens.ext rfl rfl rfl ?_
  funext ci hh ww
  cases hcd : data.val ci hh ww with
  | none => exact absurd hcd (hd ci hh ww)
  | some d =>
    cases hcg : grad.val ci hh ww with
    | none => exact absurd hcg (hg ci hh ww)
    | some gv =>
      simp [stepUpdate, clampBT, hm, hcd, hcg, vmul, vdiv, vadd, hm0]

lemma dreamLoop_zero_lr_fix (g : Tens → Tens) (hg : GradOK g) :
    ∀ (n : ℕ) (data : Tens), TFinite data → clampBT data = data → dreamLoop g 0 n data = data
  | 0, _, _, _ => rfl
  | n + 1, data, hd, hfix => by
      obtain ⟨hgf, m, hm0, hm⟩ := hg data hd
      show dreamLoop g 0 n (stepUpdate 0 (g data) data) = data
      rw [stepUpdate_zero_lr (g data) data m hm hm0 hd hgf, hfix]
      exact dreamLoop_zero_lr_fix g hg n data hd hfix

lemma clamp_unnorm_norm (ci : ℕ) (v : V) :
    vclamp01 (vdiv (vsub (vdiv (vsub v (some (meanC ci))) (some (stdC ci)))
      (some (-meanC ci / stdC ci))) (some (1 / stdC ci))) = vclamp01 v := by
  have hs := stdC_pos ci
  have hs0 : stdC ci ≠ 0 := ne_of_gt hs
  have h1s : (1 : ℚ) / stdC ci ≠ 0 := one_div_ne_zero hs0
  cases v with
  | none => simp [vsub, vdiv, vclamp01]
  | some q =>
    simp only [vsub, vdiv, vclamp01, if_neg hs0, if_neg h1s]
    have : ((q - meanC ci) / stdC ci - -meanC ci / stdC ci) / (1 / stdC ci) = q := by
      field_simp
    rw [this]

lemma clamp_unnorm_clampB_norm (ci : ℕ) (v : V) :
    vclamp01 (vdiv (vsub (vmin (vmax (vdiv (vsub v (some (meanC ci))) (some (stdC ci)))
      (some (clampMinC ci))) (some (clampMaxC ci)))
      (some (-meanC ci / stdC ci))) (some (1 / stdC ci))) = vclamp01 v := by
  have hs := stdC_pos ci
  have hs0 : stdC ci ≠ 0 := ne_of_gt hs
  have h1s : (1 : ℚ) / stdC ci ≠ 0 := one_div_ne_zero hs0
  cases v with
  | none => simp [vsub, vdiv, vmax, vmin, vclamp01]
  | some q =>
    simp only [vsub, vdiv, vmax, vmin, vclamp01, clampMinC, clampMaxC,
      if_neg hs0, if_neg h1s, Option.some.injEq]
    set m := meanC ci with hmdef
    set s := stdC ci with hsdef
    have key : (min (max ((q - m) / s) (-m / s)) ((1 - m) / s) - -m / s) / (1 / s)
        = min (max q 0) 1 := by
      have hrw : ∀ x : ℚ, (x - -m / s) / (1 / s) = (x + m / s) * s := by
        intro x
        field_simp
      rw [hrw]
      rcases le_total q 0 with hq | hq
      · rw [max_eq_right ((div_le_div_iff_of_pos_right hs).mpr (by linarith)),
          min_eq_left ((div_le_div_iff_of_pos_right hs).mpr (by linarith)),
          max_eq_right hq, min_eq_left zero_le_one]
        field_simp
      · rcases le_total q 1 with hq1 | hq1
        · rw [max_eq_left ((div_le_div_iff_of_pos_right hs).mpr (by linarith)),
            min_eq_left ((div_le_div_iff_of_pos_right hs).mpr (by linarith)),
            max_eq_left hq, min_eq_left hq1]
          field_simp
        · rw [max_eq_left ((div_le_div_iff_of_pos_right hs).mpr (by linarith)),
            min_eq_right ((div_le_div_iff_of_pos_right hs).mpr (by linarith)),
            max_eq_left (by linarith : (0:ℚ) ≤ q), min_eq_right hq1]
          field_simp
    rw [key]
    have h0 : (0:ℚ) ≤ min (max q 0) 1 := le_min (le_max_right _ _) zero_le_one
    rw [max_eq_left h0, min_eq_left (min_le_right _ _)]

lemma roundtrip_eq (img : Tens) :
    permuteHWC (clamp01T (unnormalizeT (normalizeT img))) = permuteHWC (clamp01T img) := by
  refine OutImg.ext rfl rfl rfl ?_
  funext hh ww ci
  exact clamp_unnorm_norm ci (img.val ci hh ww)

lemma argmaxFrom_of_all_lt :
    ∀ (xs : List ℚ) (bv : ℚ) (bi k : ℕ), (∀ x ∈ xs, x < bv) → argmaxFrom bv bi k xs = bi
  | [], _, _, _, _ => rfl
  | x :: xs, bv, bi, k, h => by
      have hx : ¬ bv < x := not_lt.mpr (le_of_lt (h x (by simp)))
      simp only [argmaxFrom, if_neg hx]
      exact argmaxFrom_of_all_lt xs bv bi (k + 1) (fun y hy => h y (by simp [hy]))

lemma argmaxFrom_of_strict :
    ∀ (xs : List ℚ) (bv : ℚ) (bi k j : ℕ), j < xs.length → bv < xs.getD j 0 →
      (∀ i < xs.length, i ≠ j → xs.getD i 0 < xs.getD j 0) → argmaxFrom bv bi k xs = k + j
  | [], _, _, _, j, hj, _, _ => absurd hj (by simp)
  | x :: xs, bv, bi, k, 0, _, hgt, hdom => by
      have hx : bv < x := by simpa using hgt
      simp only [argmaxFrom, if_pos hx]
      have hall : ∀ y ∈ xs, y < x := by
        intro y hy
        obtain ⟨i, hi, hyi⟩ := List.getElem_of_mem hy
        have h2 := hdom (i + 1) (by simpa using Nat.succ_lt_succ hi) (Nat.succ_ne_zero i)
        rw [List.getD_cons_succ, List.getD_cons_zero, List.getD_eq_getElem?_getD,
          List.getElem?_eq_getElem hi] at h2
        simpa [hyi] using h2
      simpa using argmaxFrom_of_all_lt xs x k (k + 1) hall
  | x :: xs, bv, bi, k, j + 1, hj, hgt, hdom => by
      have hxlt : x < (x :: xs).getD (j + 1) 0 := hdom 0 (by simp) (Nat.succ_ne_zero j).symm
      have hj' : j < xs.length := by simpa using hj
      have hgt' : ∀ bv' : ℚ, bv' < (x :: xs).getD (j + 1) 0 → bv' < xs.getD j 0 := by
        intro bv' h'
        simpa [List.getD] using h'
      have hdom' : ∀ i < xs.length, i ≠ j → xs.getD i 0 < xs.getD j 0 := by
        intro i hi hne
        have := hdom (i + 1) (by simpa using Nat.succ_lt_succ hi)
          (fun hc => hne (Nat.succ_injective hc))
        simpa [List.getD] using this
      by_cases hx : bv < x
      · simp only [argmaxFrom, if_pos hx]
        rw [argmaxFrom_of_strict xs x k (k + 1) j hj' (hgt' x hxlt) hdom']
        omega
      · simp only [argmaxFrom, if_neg hx]
        rw [argmaxFrom_of_strict xs bv bi (k + 1) j hj' (hgt' bv hgt) hdom']
        omega

lemma listArgmax_of_strict (l : List ℚ) (i : ℕ) (hi : i < l.length)
    (hdom : ∀ j < l.length, j ≠ i → l.getD j 0 < l.getD i 0) : listArgmax l = i := by
  match l, i with
  | [], _ => exact absurd hi (by simp)
  | x :: xs, 0 =>
    have hall : ∀ y ∈ xs, y < x := by
      intro y hy
      obtain ⟨j, hj, hyj⟩ := List.getElem_of_mem hy
      have h2 := hdom (j + 1) (by simpa using Nat.succ_lt_succ hj) (Nat.succ_ne_zero j)
      rw [List.getD_cons_succ, List.getD_cons_zero, List.getD_eq_getElem?_getD,
        List.getElem?_eq_getElem hj] at h2
      simpa [hyj] using h2
    simpa [listArgmax] using argmaxFrom_of_all_lt xs x 0 1 hall
  | x :: xs, i + 1 =>
    have hxlt : x < (x :: xs).getD (i + 1) 0 := hdom 0 (by simp) (Nat.succ_ne_zero i).symm
    have hi' : i < xs.length := by simpa using hi
    have hdom' : ∀ j < xs.length, j ≠ i → xs.getD j 0 < xs.getD i 0 := by
      intro j hj hne
      have := hdom (j + 1) (by simpa using Nat.succ_lt_succ hj)
        (fun hc => hne (Nat.succ_injective hc))
      simpa [List.getD] using this
    have hgt : x < xs.getD i 0 := by simpa [List.getD] using hxlt
    show argmaxFrom x 0 1 xs = i + 1
    rw [argmaxFrom_of_strict xs x 0 1 i hi' hgt hdom']
    omega

lemma simRow_length (o g : Feat) (i : ℕ) : (simRow o g i).length = g.n := by
  simp [simRow]

lemma simRow_getD (o g : Feat) (i j : ℕ) (hj : j < g.n) :
    (simRow o g i).getD j 0 = simOG o g i j := by
  rw [List.getD_eq_getElem?_getD, List.getElem?_eq_getElem (by simpa [simRow_length] using hj)]
  simp [simRow]

/-- A concrete 1x1x1 half-gray image used by witnesses and counterexamples. -/
def imgHalf : Tens := ⟨1, 1, 1, fun _ _ _ => some (1/2)⟩

/-- A gradient collaborator depositing a constant all-ones 1x1x1 gradient. -/
def gOne : Tens → Tens := fun _ => ⟨1, 1, 1, fun _ _ _ => some 1⟩

/-- The degenerate objective of spec §8: an all-zero gradient (self
amplification on a stage of all-zero activations). -/
def gZero : Tens → Tens := fun _ => ⟨1, 1, 1, fun _ _ _ => some 0⟩

/-- A concrete 3x100x100 half-gray caller-supplied source image. -/
def srcGray : Tens := ⟨3, 100, 100, fun _ _ _ => some (1/2)⟩

lemma tfinite_imgHalf : TFinite imgHalf := fun _ _ _ => by simp [imgHalf]

@[simp] lemma vadd_some_some (a b : ℚ) : vadd (some a) (some b) = some (a + b) := rfl

@[simp] lemma vsub_some_some (a b : ℚ) : vsub (some a) (some b) = some (a - b) := rfl

@[simp] lemma vmul_some_some (a b : ℚ) : vmul (some a) (some b) = some (a * b) := rfl

@[simp] lemma vdiv_some_some (a b : ℚ) :
    vdiv (some a) (some b) = if b = 0 then none else some (a / b) := rfl

@[simp] lemma vmax_some_some (a b : ℚ) : vmax (some a) (some b) = some (max a b) := rfl

@[simp] lemma vmin_some_some (a b : ℚ) : vmin (some a) (some b) = some (min a b) := rfl

@[simp] lemma vabs_some (a : ℚ) : vabs (some a) = some |a| := rfl

@[simp] lemma vclamp01_some (a : ℚ) : vclamp01 (some a) = some (min (max a 0) 1) := rfl

@[simp] lemma vadd_none_right (x : V) : vadd x none = none := by cases x <;> rfl

@[simp] lemma vadd_none_left (y : V) : vadd none y = none := rfl

@[simp] lemma vsub_none_left (y : V) : vsub none y = none := rfl

@[simp] lemma vdiv_none_left (y : V) : vdiv none y = none := rfl

@[simp] lemma vmax_none_left (y : V) : vmax none y = none := rfl

@[simp] lemma vmin_none_left (y : V) : vmin none y = none := rfl

@[simp] lemma vclamp01_none : vclamp01 none = none := rfl

lemma meanAbs_gOne (t : Tens) : meanAbs (gOne t) = some 1 := by
  norm_num [gOne, meanAbs, allVals, sumV, List.range_succ]

lemma gradOK_gOne : GradOK gOne :=
  fun data _ => ⟨fun _ _ _ => by simp [gOne], 1, one_ne_zero, meanAbs_gOne data⟩

lemma meanAbs_gZero (t : Tens) : meanAbs (gZero t) = some 0 := by
  norm_num [gZero, meanAbs, allVals, sumV, List.range_succ]

lemma dream_one_iter (g : Tens → Tens) (lr : ℚ) (img : Tens) :
    dream g 1 lr img
      = permuteHWC (clamp01T (unnormalizeT
          (stepUpdate lr (g (normalizeT img)) (normalizeT img)))) := rfl

lemma stepUpdate_gZero_none (lr : ℚ) (data : Tens) (d : ℚ)
    (hd : data.val 0 0 0 = some d) :
    (stepUpdate lr (gZero data) data).val 0 0 0 = none := by
  simp [stepUpdate, meanAbs_gZero, hd, show (gZero data).val 0 0 0 = some 0 from rfl]

lemma normalizeT_imgHalf_val : (normalizeT imgHalf).val 0 0 0 = some (15/229) := by
  norm_num [normalizeT, normWith, imgHalf, vsub, vdiv, meanC, stdC]

lemma dream_gZero_none (lr : ℚ) : (dream gZero 1 lr imgHalf).val 0 0 0 = none := by
  rw [dream_one_iter]
  have h1 := stepUpdate_gZero_none lr (normalizeT imgHalf) (15/229) normalizeT_imgHalf_val
  simp [permuteHWC, clamp01T, unnormalizeT, normWith, h1]

/-- C1: for every iteration of the dream loop whose mean absolute gradient is
a nonzero finite value, the loop performs `dreamLoop (n+1) = dreamLoop n`
after one `stepUpdate`, and the updated element equals the old element plus
gradient * learning_rate / mean-absolute-gradient, clamped elementwise per
channel to clamp_min = -mean/std and clamp_max = (1-mean)/std derived from
the normalization constants. -/
theorem dream_step_formula (g : Tens → Tens) (lr : ℚ) (data : Tens) (n : ℕ)
    (m d gv : ℚ) (ci hh ww : ℕ)
    (hm : meanAbs (g data) = some m) (hm0 : m ≠ 0)
    (hd : data.val ci hh ww = some d) (hgv : (g data).val ci hh ww = some gv) :
    dreamLoop g lr (n + 1) data = dreamLoop g lr n (stepUpdate lr (g data) data)
      ∧ (stepUpdate lr (g data) data).val ci hh ww
          = some (min (max (d + gv * lr / m) (clampMinC ci)) (clampMaxC ci))
      ∧ clampMinC ci = -meanC ci / stdC ci
      ∧ clampMaxC ci = (1 - meanC ci) / stdC ci := by
  refine ⟨rfl, ?_, rfl, rfl⟩
  simp [stepUpdate, hm, hd, hgv, hm0]

/-- C1 witness: the step formula evaluated on a concrete 1x1x1 state with
gradient 1, mean absolute gradient 1 and learning rate 1/50. -/
theorem dream_step_formula_witness :
    dreamLoop gOne (1/50) 1 (normalizeT imgHalf)
        = dreamLoop gOne (1/50) 0
            (stepUpdate (1/50) (gOne (normalizeT imgHalf)) (normalizeT imgHalf))
      ∧ (stepUpdate (1/50) (gOne (normalizeT imgHalf)) (normalizeT imgHalf)).val 0 0 0
          = some (min (max ((15/229) + 1 * (1/50) / 1) (clampMinC 0)) (clampMaxC 0))
      ∧ clampMinC 0 = -meanC 0 / stdC 0
      ∧ clampMaxC 0 = (1 - meanC 0) / stdC 0 :=
  dream_step_formula gOne (1/50) (normalizeT imgHalf) 0 1 (15/229) 1 0 0 0
    (meanAbs_gOne _) one_ne_zero normalizeT_imgHalf_val rfl

/-- C4: the code performs no entry validation.  A negative iteration count is
not rejected: `range(-1)` is empty, so `dream` silently returns the
0-iteration image (here with a negative learning rate as well); and a
non-positive learning rate (0) is consumed by the update unchecked, the call
returning a normal finite image.  This contradicts the claim that invalid
configurations are rejected at entry with a clear error. -/
theorem dream_no_entry_validation :
    dream gOne (-1) (-1) imgHalf = permuteHWC (clamp01T (unnormalizeT (normalizeT imgHalf)))
      ∧ (dream gOne 1 0 imgHalf).val 0 0 0 = some (1/2) := by
  constructor
  · rfl
  · rw [dream_one_iter]
    have hstep : (stepUpdate 0 (gOne (normalizeT imgHalf)) (normalizeT imgHalf)).val 0 0 0
        = some (15/229) := by
      simp [stepUpdate, meanAbs_gOne, normalizeT_imgHalf_val,
        show (gOne (normalizeT imgHalf)).val 0 0 0 = some 1 from rfl]
      norm_num [clampMinC, clampMaxC, meanC, stdC, max_def, min_def]
    simp [permuteHWC, clamp01T, unnormalizeT, normWith, hstep, meanC, stdC]
    norm_num [max_def, min_def]

/-- C5: the degenerate all-zero gradient at the first step is not guarded:
`grad_mean` is exactly zero, the update computes `0 * lr / 0` (IEEE NaN,
embedded as `none`), and the non-finite value is silently stored in the
image state and propagated to the returned image — the step is not a defined
no-op, contradicting the claim. -/
theorem dream_zero_grad_nan :
    (stepUpdate (1/50) (gZero (normalizeT imgHalf)) (normalizeT imgHalf)).val 0 0 0 = none
      ∧ (dream gZero 1 (1/50) imgHalf).val 0 0 0 = none :=
  ⟨stepUpdate_gZero_none (1/50) _ (15/229) normalizeT_imgHalf_val, dream_gZero_none (1/50)⟩

/-- C7: with iteration count 0, `dream` performs no optimization step and
never invokes the objective: the output equals the unnormalize of the input's
normalized form clamped to [0,1] (in the returned HxWxC layout), and is
identical for any two objective functions and learning rates. -/
theorem dream_zero_iterations (g g' : Tens → Tens) (lr lr' : ℚ) (img : Tens) :
    dream g 0 lr img = permuteHWC (clamp01T (unnormalizeT (normalizeT img)))
      ∧ dream g 0 lr img = dream g' 0 lr' img :=
  ⟨rfl, rfl⟩

/-- C9: with random shifting disabled, `dream` is a pure function of the
image, objective, iteration count and learning rate only: two runs on
identical arguments produce identical outputs (the embedding consults no
random source or hidden state). -/
theorem dream_deterministic (g g' : Tens → Tens) (n n' : ℤ) (lr lr' : ℚ)
    (img img' : Tens) (hg : g = g') (hn : n = n') (hlr : lr = lr') (himg : img = img') :
    dream g n lr img = dream g' n' lr' img' := by
  subst hg hn hlr himg
  rfl

/-- C9 witness: two concrete identical runs. -/
theorem dream_deterministic_witness :
    dream gOne 1 (1/50) imgHalf = dream gOne 1 (1/50) imgHalf :=
  dream_deterministic gOne gOne 1 1 (1/50) (1/50) imgHalf imgHalf rfl rfl rfl rfl

/-- C10: with random shifting enabled, the working tensor keeps its full
post-preprocessing shape at every iteration regardless of the offsets drawn:
the gradient propagated back through the slice (`padGradT`) has the full
data shape, every intermediate loop state has the shape of the normalized
input, and the returned image is at the full size. -/
theorem dream_shift_full_shape (gs : Tens → Tens) (lr : ℚ) (img : Tens) (offs : List Off) :
    (∀ (o : Off) (data gx : Tens), (padGradT o data gx).c = data.c
        ∧ (padGradT o data gx).h = data.h ∧ (padGradT o data gx).w = data.w)
      ∧ ((dreamShiftLoop gs lr offs (normalizeT img)).c = img.c
        ∧ (dreamShiftLoop gs lr offs (normalizeT img)).h = img.h
        ∧ (dreamShiftLoop gs lr offs (normalizeT img)).w = img.w)
      ∧ ((dreamShift gs offs lr img).h = img.h ∧ (dreamShift gs offs lr img).w = img.w
        ∧ (dreamShift gs offs lr img).c = img.c) := by
  refine ⟨fun o data gx => ⟨rfl, rfl, rfl⟩, ?_, ?_⟩
  · exact dreamShiftLoop_dims gs lr offs (normalizeT img)
  · obtain ⟨h1, h2, h3⟩ := dreamShiftLoop_dims gs lr offs (normalizeT img)
    exact ⟨h2, h3, h1⟩

/-- C2 (amended): every element of the image returned by `dream` lies in
[0,1] for every finite input image, every iteration count, and every
objective whose gradient is everywhere finite with nonzero mean absolute
magnitude.  (The unconditional claim is false: a degenerate all-zero
gradient makes the division by `grad_mean` non-finite — see the
counterexample.) -/
theorem dream_output_in_unit_interval (g : Tens → Tens) (nIter : ℤ) (lr : ℚ)
    (img : Tens) (himg : TFinite img) (hg : GradOK g) (hh ww ci : ℕ) :
    ∃ q : ℚ, (dream g nIter lr img).val hh ww ci = some q ∧ 0 ≤ q ∧ q ≤ 1 := by
  have hfin : TFinite (dreamLoop g lr nIter.toNat (normalizeT img)) :=
    dreamLoop_finite g lr hg nIter.toNat (normalizeT img) (normalizeT_finite img himg)
  cases hv : (dreamLoop g lr nIter.toNat (normalizeT img)).val ci hh ww with
  | none => exact absurd hv (hfin ci hh ww)
  | some p =>
    have h1s : (1:ℚ) / stdC ci ≠ 0 := one_div_ne_zero (ne_of_gt (stdC_pos ci))
    refine ⟨min (max ((p - -meanC ci / stdC ci) / (1 / stdC ci)) 0) 1, ?_,
      le_min (le_max_right _ _) zero_le_one, min_le_right _ _⟩
    show vclamp01 ((unnormalizeT (dreamLoop g lr nIter.toNat (normalizeT img))).val ci hh ww)
        = some (min (max ((p - -meanC ci / stdC ci) / (1 / stdC ci)) 0) 1)
    simp only [unnormalizeT, normWith, hv, vsub_some_some, vdiv_some_some, if_neg h1s,
      vclamp01_some]

/-- C2 witness: the amended invariant at a concrete finite image and
nondegenerate objective. -/
theorem dream_output_in_unit_interval_witness :
    ∃ q : ℚ, (dream gOne 1 (1/50) imgHalf).val 0 0 0 = some q ∧ 0 ≤ q ∧ q ≤ 1 :=
  dream_output_in_unit_interval gOne 1 (1/50) imgHalf tfinite_imgHalf gradOK_gOne 0 0 0

/-- C2 counterexample: with the degenerate all-zero-gradient objective and a
single iteration on a finite input, the returned element is non-finite, so it
lies in no interval — the claim quantified over every objective is false. -/
theorem dream_output_unit_interval_cex :
    ¬ ∃ q : ℚ, (dream gZero 1 (1/10) imgHalf).val 0 0 0 = some q ∧ 0 ≤ q ∧ q ≤ 1 := by
  rintro ⟨q, hq, -⟩
  rw [dream_gZero_none (1/10)] at hq
  exact Option.noConfusion hq

/-- C8 (amended): with learning rate 0, a finite input image and a
nondegenerate objective (finite gradient with nonzero mean absolute magnitude
at every finite state), the returned image equals the input image
round-tripped through normalize/unnormalize and clamped to [0,1] — exactly,
in the rational arithmetic of the embedding — for every iteration count.
(Without the nondegeneracy condition the claim is false: see the
counterexample.) -/
theorem dream_zero_lr_identity (g : Tens → Tens) (nIter : ℤ) (img : Tens)
    (himg : TFinite img) (hg : GradOK g) :
    dream g nIter 0 img = permuteHWC (clamp01T (unnormalizeT (normalizeT img)))
      ∧ dream g nIter 0 img = permuteHWC (clamp01T img) := by
  have hfin0 : TFinite (normalizeT img) := normalizeT_finite img himg
  have hmain : dream g nIter 0 img
      = permuteHWC (clamp01T (unnormalizeT (normalizeT img))) := by
    cases hn : nIter.toNat with
    | zero => simp [dream, hn, dreamLoop]
    | succ k =>
      have hstate : dreamLoop g 0 (k + 1) (normalizeT img) = clampBT (normalizeT img) := by
        obtain ⟨hgf, m, hm0, hm⟩ := hg (normalizeT img) hfin0
        show dreamLoop g 0 k (stepUpdate 0 (g (normalizeT img)) (normalizeT img)) = _
        rw [stepUpdate_zero_lr (g (normalizeT img)) (normalizeT img) m hm hm0 hfin0 hgf]
        exact dreamLoop_zero_lr_fix g hg k (clampBT (normalizeT img))
          (clampBT_finite _ hfin0) (clampBT_idem (normalizeT img))
      rw [dream, hn, hstate]
      refine OutImg.ext rfl rfl rfl ?_
      funext hh ww ci
      exact (clamp_unnorm_clampB_norm ci (img.val ci hh ww)).trans
        (clamp_unnorm_norm ci (img.val ci hh ww)).symm
  exact ⟨hmain, hmain.trans (roundtrip_eq img)⟩

/-- C8 witness: the zero-learning-rate identity at a concrete finite image,
nondegenerate objective and 3 iterations. -/
theorem dream_zero_lr_identity_witness :
    dream gOne 3 0 imgHalf = permuteHWC (clamp01T (unnormalizeT (normalizeT imgHalf)))
      ∧ dream gOne 3 0 imgHalf = permuteHWC (clamp01T imgHalf) :=
  dream_zero_lr_identity gOne 3 imgHalf tfinite_imgHalf gradOK_gOne

/-- C8 counterexample: with learning rate 0 but the degenerate all-zero
gradient objective, one iteration returns a non-finite element instead of the
clamped input element — the claim quantified over every objective is false. -/
theorem dream_zero_lr_cex :
    (dream gZero 1 0 imgHalf).val 0 0 0 ≠ (permuteHWC (clamp01T imgHalf)).val 0 0 0 := by
  rw [dream_gZero_none 0]
  simp [permuteHWC, clamp01T, imgHalf]

/-- C6 (amended): a successful run returns an image whose spatial dimensions
equal those of the preprocessed image — the caller-supplied source after the
`Resize(256)` transform of `img_transform` — which coincide with the caller's
dimensions exactly when the source's shorter edge is already 256.  (The
claim as stated, that the output dimensions equal the caller's, is false:
see the counterexample.) -/
theorem dream_output_dims (g : Tens → Tens) (nIter : ℤ) (lr : ℚ) (src : Tens) :
    (dreamFromSrc g nIter lr src).h = (resizeDims src.h src.w).1
      ∧ (dreamFromSrc g nIter lr src).w = (resizeDims src.h src.w).2
      ∧ (dreamFromSrc g nIter lr src).c = src.c
      ∧ (min src.h src.w = 256 → resizeDims src.h src.w = (src.h, src.w)) := by
  obtain ⟨h1, h2, h3⟩ := dreamLoop_dims g lr nIter.toNat (normalizeT (resizeNN src))
  refine ⟨h2, h3, h1, ?_⟩
  intro hmin
  have hcond : (src.w ≤ src.h ∧ src.w = 256) ∨ (src.h ≤ src.w ∧ src.h = 256) := by
    rcases le_total src.w src.h with h' | h'
    · exact Or.inl ⟨h', by rw [min_eq_right h'] at hmin; exact hmin⟩
    · exact Or.inr ⟨h', by rw [min_eq_left h'] at hmin; exact hmin⟩
  simp [resizeDims, if_pos hcond]

/-- C6 witness: the amended dimension property at a concrete source image. -/
theorem dream_output_dims_witness :
    (dreamFromSrc gOne 0 (1/50) srcGray).h = (resizeDims srcGray.h srcGray.w).1
      ∧ (dreamFromSrc gOne 0 (1/50) srcGray).w = (resizeDims srcGray.h srcGray.w).2
      ∧ (dreamFromSrc gOne 0 (1/50) srcGray).c = srcGray.c
      ∧ (min srcGray.h srcGray.w = 256 → resizeDims srcGray.h srcGray.w = (srcGray.h, srcGray.w)) :=
  dream_output_dims gOne 0 (1/50) srcGray

/-- C6 counterexample: the 3x100x100 source comes back with spatial height
256, not 100 — the output dimensions are those of the resized image, not the
caller-supplied ones. -/
theorem dream_output_dims_cex :
    srcGray.h = 100 ∧ (dreamFromSrc gOne 0 (1/50) srcGray).h = 256
      ∧ (dreamFromSrc gOne 0 (1/50) srcGray).h ≠ srcGray.h := by
  have h256 : (dreamFromSrc gOne 0 (1/50) srcGray).h = 256 := rfl
  exact ⟨rfl, h256, by rw [h256]; decide⟩

/-- A concrete 2x2 feature stage (identity pattern) whose self-similarity is
strictly maximal at every location. -/
def featId2 : Feat := ⟨2, 2, fun c i => if c = i then 1 else 0⟩

/-- A concrete 1-channel feature stage with two locations of values 1 and 2:
location 0 is more similar to location 1 than to itself. -/
def featCE : Feat := ⟨1, 2, fun _ i => if i = 0 then 1 else 2⟩

/-- C3 (amended): for the guided-similarity objective with the reference
feature list equal to the working feature list, whenever each location's
self-similarity strictly exceeds its dot-product similarity with every other
location, the argmax selects that same location at every spatial location
and the injected gradient equals the original activation tensor at every
in-range entry.  (The unconditional claim is false — a location whose
feature vector has a larger dot product with another location's vector
selects that other location: see the counterexample.) -/
theorem guided_self_match (o : Feat)
    (hstrict : ∀ i < o.n, ∀ j < o.n, j ≠ i → simOG o o i j < simOG o o i i) :
    (∀ i < o.n, bestIdx o o i = i)
      ∧ (injectedGrad o o).ch = o.ch ∧ (injectedGrad o o).n = o.n
      ∧ (∀ ci i, i < o.n → (injectedGrad o o).val ci i = o.val ci i) := by
  have hbest : ∀ i < o.n, bestIdx o o i = i := by
    intro i hi
    refine listArgmax_of_strict (simRow o o i) i (by simpa [simRow_length] using hi) ?_
    intro j hj hne
    rw [simRow_getD o o i j (by simpa [simRow_length] using hj),
        simRow_getD o o i i hi]
    exact hstrict i hi j (by simpa [simRow_length] using hj) hne
  refine ⟨hbest, rfl, rfl, ?_⟩
  intro ci i hi
  simp [injectedGrad, hbest i hi]

/-- C3 witness: the amended statement at a concrete 2x2 feature stage with
strictly maximal self-similarity. -/
theorem guided_self_match_witness :
    (∀ i < featId2.n, bestIdx featId2 featId2 i = i)
      ∧ (injectedGrad featId2 featId2).ch = featId2.ch
      ∧ (injectedGrad featId2 featId2).n = featId2.n
      ∧ (∀ ci i, i < featId2.n → (injectedGrad featId2 featId2).val ci i = featId2.val ci i) :=
  guided_self_match featId2 (by
    intro i hi j hj hne
    have hi2 : i < 2 := hi
    have hj2 : j < 2 := hj
    interval_cases i <;> interval_cases j <;>
      simp_all [simOG, featId2, List.range_succ])

/-- C3 counterexample: for the 1-channel stage with feature values (1, 2),
the argmax at location 0 selects location 1, not location 0, and the
injected gradient there is the activation of location 1, not the original
activation — the unconditional claim is false. -/
theorem guided_self_match_cex :
    bestIdx featCE featCE 0 ≠ 0
      ∧ (injectedGrad featCE featCE).val 0 0 ≠ featCE.val 0 0 := by
  have hb : bestIdx featCE featCE 0 = 1 := by
    have h12 : ((1:ℚ) < 2) := one_lt_two
    simp only [bestIdx, simRow, simOG, featCE, List.range_succ, List.range_zero]
    norm_num [listArgmax, argmaxFrom]
  constructor
  · rw [hb]
    exact Nat.one_ne_zero
  · have hv2 : (injectedGrad featCE featCE).val 0 0 = 2 := by
      show featCE.val 0 (bestIdx featCE featCE 0) = 2
      rw [hb]
      norm_num [featCE]
    rw [hv2]
    norm_num [featCE]

end DreamSpec
